import Mathlib

/-!
Verification development for the probing engine of `editor-layer-index`:
the host-serialized fetch cache (`get_url` in
`scripts/highres_tile_checker.py` and `scripts/sync_tms_minzoom.py`), the
URL-template substitution, the `@2x` high-resolution rewrite, the highres
probe decision, and the minzoom sweep with its write-back post-processing.

Python strings are embedded as `List Char`, bytes payloads as `List Nat`,
dictionaries as association lists, and the two scripts' shared fetch
routine as a pure state-passing function over a transport oracle.  The
cooperative-concurrency claims are settled over a small-step transition
system whose atomic blocks coincide with the code regions between `await`
suspension points.
-/

/-! ## Association lists (Python `dict` embedding)

Python dictionaries (`response_cache`, `domain_locks`, the parsed source
record) are embedded as association lists with unique keys: lookup finds
the first binding, assignment replaces the first binding in place or
appends at the end (dict insertion order), and deletion (`dict.pop`)
removes the key's bindings. -/

def alookup {α : Type} (k : List Char) : List (List Char × α) → Option α
  | [] => none
  | p :: t => if p.1 = k then some p.2 else alookup k t

def aset {α : Type} (k : List Char) (v : α) : List (List Char × α) → List (List Char × α)
  | [] => [(k, v)]
  | p :: t => if p.1 = k then (k, v) :: t else p :: aset k v t

def aerase {α : Type} (k : List Char) (l : List (List Char × α)) : List (List Char × α) :=
  l.filter (fun p => !(decide (p.1 = k)))

/-! ## Strings: substring test and `str.replace`

`isPre n l` is `l.startswith(n)`; `occursIn n l` is Python's `n in l`;
`replaceAll n r l` is `l.replace(n, r)` (all non-overlapping occurrences,
scanning left to right).  `numOccs n l` counts the positions of `l` at
which `n` occurs (used to state "exactly one occurrence"). -/

def isPre : List Char → List Char → Bool
  | [], _ => true
  | _ :: _, [] => false
  | a :: as, b :: bs => a == b && isPre as bs

def occursIn (needle : List Char) : List Char → Bool
  | [] => isPre needle []
  | x :: t => isPre needle (x :: t) || occursIn needle t

def numOccs (needle : List Char) : List Char → Nat
  | [] => if isPre needle [] then 1 else 0
  | x :: t => (if isPre needle (x :: t) then 1 else 0) + numOccs needle t

def replaceAllF (needle repl : List Char) : Nat → List Char → List Char
  | _, [] => []
  | 0, x :: t => x :: t
  | fuel + 1, x :: t =>
    if isPre needle (x :: t) then
      repl ++ replaceAllF needle repl fuel (List.drop needle.length (x :: t))
    else
      x :: replaceAllF needle repl fuel t

def replaceAll (needle repl hay : List Char) : List Char :=
  replaceAllF needle repl hay.length hay

/-! ## URL parsing: the `netloc` component

Embeds the part of `urllib.parse.urlparse` that the scripts consult: the
host (`netloc`) component.  A leading `scheme:` (letter followed by
letters, digits, `+`, `-`, `.`) is stripped; the netloc is then the
segment after a leading `//`, up to the next `/`, `?` or `#`; a URL not
starting (after the scheme) with `//` has an empty netloc. -/

def isSchemeChar (c : Char) : Bool :=
  c.isAlphanum || c == '+' || c == '-' || c == '.'

def findColon : List Char → Option (List Char × List Char)
  | [] => none
  | c :: t =>
    if c = ':' then some ([], t)
    else
      match findColon t with
      | some (a, b) => some (c :: a, b)
      | none => none

def validScheme : List Char → Bool
  | [] => false
  | c :: t => c.isAlpha && t.all isSchemeChar

def afterScheme (u : List Char) : List Char :=
  match findColon u with
  | some (sch, rest) => if validScheme sch then rest else u
  | none => u

def urlNetloc (u : List Char) : List Char :=
  match afterScheme u with
  | '/' :: '/' :: rest => rest.takeWhile (fun c => !(c == '/' || c == '?' || c == '#'))
  | _ => []

/-! ## The fetch cache (`get_url` in both scripts)

Both scripts define the same `get_url` coroutine, differing only in the
retry budget (`range(3)` in `highres_tile_checker.py`, `range(2)` in
`sync_tms_minzoom.py`).  Here it is embedded as a pure function of a
`FetchState` (the module-level `response_cache` / `domain_locks` /
a transport-invocation counter) and a transport oracle giving the outcome
of the `k`-th transport invocation of the run. -/

/-- `RequestResult` namedtuple: fields `status`, `text`, `exception`,
all defaulting to `None`.  The `text` field holds the decoded text or the
raw bytes payload, embedded uniformly as `List Nat`. -/
structure RequestResult where
  status : Option Nat := none
  text : Option (List Nat) := none
  exception : Option (List Char) := none
deriving DecidableEq, Repr

/-- Result of `await response.read()`: the bytes, or a raised exception. -/
inductive ReadRes where
  | ok (data : List Nat)
  | err (msg : List Char)
deriving DecidableEq, Repr

/-- Outcome of one `session.request` attempt: a timeout
(`asyncio.TimeoutError`), some other raised exception, or a response with
a status code together with the outcomes of the subsequent
`response.text()` (`none` embeds a decode failure, which the code catches
and falls back to `read()`) and `response.read()` calls. -/
inductive TransportOutcome where
  | timeout
  | raised (msg : List Char)
  | response (status : Nat) (textRes : Option (List Nat)) (readRes : ReadRes)
deriving DecidableEq, Repr

/-- The `RequestResult` stored in `response_cache[url]` by one loop
iteration of `get_url`, following the `with_text` / `with_data` / bare
branches and the two `except` handlers. -/
def resultOf (url : List Char) (withText withData : Bool) : TransportOutcome → RequestResult
  | TransportOutcome.timeout =>
      { exception := some ("Timeout for: ".data ++ url) }
  | TransportOutcome.raised m =>
      { exception := some ("Exception ".data ++ m ++ " for: ".data ++ url) }
  | TransportOutcome.response st textRes readRes =>
      if withText then
        match textRes with
        | some t => { status := some st, text := some t }
        | none =>
          match readRes with
          | ReadRes.ok d => { status := some st, text := some d }
          | ReadRes.err m =>
              { exception := some ("Exception ".data ++ m ++ " for: ".data ++ url) }
      else if withData then
        match readRes with
        | ReadRes.ok d => { status := some st, text := some d }
        | ReadRes.err m =>
            { exception := some ("Exception ".data ++ m ++ " for: ".data ++ url) }
      else
        { status := some st }

/-- Process-scoped state shared by all fetches of a run: `response_cache`
(URL → result), `domain_locks` (the set of hosts whose mutex has been
created, in creation order), and a counter of transport invocations. -/
structure FetchState where
  responseCache : List (List Char × RequestResult) := []
  domainLocks : List (List Char) := []
  transportCalls : Nat := 0
deriving DecidableEq, Repr

/-- Embeds the loop-break test `if RequestResult.exception is None: break`.
`RequestResult` there is the namedtuple *class*, whose `exception`
attribute is a tuplegetter descriptor and never `None`, so the test is
always false and the break is never taken. -/
def namedtupleClassExceptionIsNone : Bool := false

/-- The retry loop `for i in range(budget)` of `get_url`: each iteration
invokes the transport once and overwrites `response_cache[url]` with that
attempt's result; the break test never fires (see
`namedtupleClassExceptionIsNone`). -/
def getUrlAttempts (url : List Char) (withText withData : Bool)
    (transport : Nat → TransportOutcome) : Nat → FetchState → FetchState
  | 0, st => st
  | n + 1, st =>
    let o := transport st.transportCalls
    let st' : FetchState :=
      { st with
        transportCalls := st.transportCalls + 1
        responseCache := aset url (resultOf url withText withData o) st.responseCache }
    if namedtupleClassExceptionIsNone then st' else getUrlAttempts url withText withData transport n st'

/-- The `async with domain_lock:` block of `get_url`: create the host's
mutex if absent.  Its only observable effect in the sequential view is the
lazily added `domain_locks` entry. -/
def ensureLockState (url : List Char) (st : FetchState) : FetchState :=
  { st with
    domainLocks :=
      if urlNetloc url ∈ st.domainLocks then st.domainLocks
      else st.domainLocks ++ [urlNetloc url] }

/-- `get_url(url, session, with_text, with_data, headers)`, sequential view
(one caller; the lock acquisitions always succeed immediately).  Returns
the `RequestResult` (`return response_cache[url]`) together with the
updated shared state. -/
def getUrl (budget : Nat) (transport : Nat → TransportOutcome) (url : List Char)
    (withText withData : Bool) (st : FetchState) : RequestResult × FetchState :=
  if urlNetloc url = [] then
    ({ exception := some ("Could not parse URL: ".data ++ url) }, st)
  else
    let st1 := ensureLockState url st
    if (alookup url st1.responseCache).isSome then
      ((alookup url st1.responseCache).getD {}, st1)
    else
      let st2 := getUrlAttempts url withText withData transport budget st1
      ((alookup url st2.responseCache).getD {}, st2)

/-! ## Minzoom sweep (`sync_tms_minzoom.py`, `process_source`)

The per-zoom probe outcome is abstracted as a trace
`f : Nat → Option Nat`: `f zoom` is the perceptual hash returned by
`test_zoom(zoom)` (`none` embeds `None`, i.e. fetch/decode failure or a
blank tile).  The sweep is the loop

    previous_images = []; min_zoom = None
    for zoom in range(20):
        image_hash = await test_zoom(zoom)
        if image_hash is not None:
            if len(previous_images) > 0 and previous_images[-1] is not None \
               and not previous_images[-1] == image_hash:
                min_zoom = len(previous_images); break
        previous_images.append(image_hash)
-/

def minzoomScanGo (f : Nat → Option Nat) : Nat → Nat → List (Option Nat) → Option Nat
  | 0, _, _ => none
  | fuel + 1, zoom, prev =>
    match f zoom with
    | some h =>
      match prev.getLast? with
      | some (some h') =>
        if ¬(h' = h) then some prev.length
        else minzoomScanGo f fuel (zoom + 1) (prev ++ [some h])
      | _ => minzoomScanGo f fuel (zoom + 1) (prev ++ [some h])
    | none => minzoomScanGo f fuel (zoom + 1) (prev ++ [none])

def minzoomScan (f : Nat → Option Nat) : Option Nat :=
  minzoomScanGo f 20 0 []

/-- First `z` with `z0 ≤ z < z0 + fuel` satisfying `p`, scanning upward. -/
def firstSuchZoom (p : Nat → Bool) : Nat → Nat → Option Nat
  | 0, _ => none
  | fuel + 1, z => if p z then some z else firstSuchZoom p fuel (z + 1)

/-- The stop condition the code actually implements at zoom `z`: the
current hash is present and the *immediately preceding* trace entry
(`previous_images[-1]`, i.e. zoom `z - 1`) is a present hash different
from it. -/
def stopHere (f : Nat → Option Nat) (z : Nat) : Bool :=
  match z, f z with
  | w + 1, some h =>
    match f w with
    | some h' => !(h' == h)
    | none => false
  | _, _ => false

/-- Modelled from the spec's words (§4.4 step 4), for comparison with the
code: the most recent *present* hash recorded before zoom `z`, skipping
absent entries. -/
def specLastPresentBefore (f : Nat → Option Nat) (z : Nat) : Option Nat :=
  match z with
  | 0 => none
  | w + 1 =>
    match f w with
    | some h => some h
    | none => specLastPresentBefore f w

/-- Modelled from the spec's words: stop at zoom `z` as soon as the
current hash is present and the most recent previously recorded present
hash differs from it. -/
def specStopHere (f : Nat → Option Nat) (z : Nat) : Bool :=
  match f z, specLastPresentBefore f z with
  | some h, some h' => !(h' == h)
  | _, _ => false

/-! ## Minzoom write-back (`process_source`, lines 185–208)

The parsed record's `properties` dict is embedded as an association list
of JSON values; the function returns the updated properties and whether
the file is rewritten (`json.dump`). -/

inductive JVal where
  | num (n : Int)
  | str (s : List Char)
  | boolean (b : Bool)
  | null
deriving DecidableEq, Repr

def minZoomKey : List Char := "min_zoom".data

/-- Python `min_zoom == original_min_zoom` where `min_zoom` is `None` or
an `int` and `original_min_zoom` is `None` or the JSON value stored under
`min_zoom`.  A stored JSON `null` is parsed by `json.loads` to Python
`None`, and `None == None` is `True`; `True == 1` in Python, hence the
boolean case. -/
def pyEqMinzoom : Option Nat → Option JVal → Bool
  | none, none => true
  | none, some JVal.null => true
  | some n, some (JVal.num m) => (n : Int) == m
  | some n, some (JVal.boolean b) => (if b then (1 : Int) else 0) == (n : Int)
  | _, _ => false

/-- The post-processing after the sweep: only when a zoom was discovered
(`min_zoom is not None`) is `0` normalised to `None`, the value compared
against the existing `min_zoom` property, and on difference the property
set or removed and the file rewritten. -/
def minzoomUpdate (found : Option Nat) (props : List (List Char × JVal)) :
    List (List Char × JVal) × Bool :=
  match found with
  | none => (props, false)
  | some mz0 =>
    let mz : Option Nat := if mz0 = 0 then none else some mz0
    if pyEqMinzoom mz (alookup minZoomKey props) then (props, false)
    else
      match mz with
      | none => (aerase minZoomKey props, true)
      | some m => (aset minZoomKey (JVal.num (m : Int)) props, true)

/-! ## Highres probe decision (`highres_tile_checker.py`, `test_zoom` and
`process_source`)

The image decoder (`PIL.Image.open` + `.size`) is abstracted as an oracle
from the raw bytes to the decoded dimensions (`none` embeds a decode
exception).  `fetch b` is the `RequestResult` of `get_url` on the normal
(`b = false`) or `@2x`-rewritten (`b = true`) tile URL. -/

def testZoomCheck (decode : List Nat → Option (Nat × Nat)) (r : RequestResult)
    (highres : Bool) : Bool :=
  if r.status == some 200 then
    match r.text with
    | some d =>
      match decode d with
      | some wh => if highres then wh == (512, 512) else wh == (256, 256)
      | none => false
    | none => false
  else false

/-- `if await test_zoom(zoom, highres=False) and await test_zoom(zoom, highres=True)`:
the verdict together with the list of variants actually fetched, in order
(`false` = normal resolution, `true` = `@2x`); Python's `and` short-circuits. -/
def highresProbe (decode : List Nat → Option (Nat × Nat))
    (fetch : Bool → RequestResult) : Bool × List Bool :=
  if testZoomCheck decode (fetch false) false then
    (testZoomCheck decode (fetch true) true, [false, true])
  else
    (false, [false])

/-! ## URL template `y` substitution (`test_zoom` in both scripts) -/

def yFlipPat : List Char := ['{', '-', 'y', '}']

def yAltPat : List Char := ['{', '!', 'y', '}']

def yPlainPat : List Char := ['{', 'y', '}']

def intChars (i : Int) : List Char := (toString i).data

/-- The `{-y}` / `{!y}` / `{y}` substitution, in the source's priority
order.  In Python, `2 ** (zoom - 1)` is a float when `zoom = 0`; the
integer embedding (`Nat` subtraction in the exponent) therefore agrees
with the code for `zoom ≥ 1`, and the theorems about the `{!y}` branch
are stated under that guard. -/
def substituteY (template : List Char) (zoom row : Nat) : List Char :=
  if occursIn yFlipPat template then
    replaceAll yFlipPat (intChars ((2 : Int) ^ zoom - 1 - row)) template
  else if occursIn yAltPat template then
    replaceAll yAltPat (intChars ((2 : Int) ^ (zoom - 1) - 1 - row)) template
  else
    replaceAll yPlainPat (intChars (row : Int)) template

/-! ## High-resolution `@2x` path rewrite (`test_zoom`, highres variant)

The source iterates a Python *set* literal of extensions; the iteration
order of a set is unspecified, so the list below fixes the order in which
the literal is written.  Under the claims' single-occurrence precondition
the result is independent of that order. -/

def extPng : List Char := "png".data
def extJpg : List Char := "jpg".data
def extJpeg : List Char := "jpeg".data
def extPng32 : List Char := "png32".data
def extPng64 : List Char := "png64".data
def extPng128 : List Char := "png128".data
def extPng256 : List Char := "png256".data
def extJpg70 : List Char := "jpg70".data
def extJpg80 : List Char := "jpg80".data
def extJpg90 : List Char := "jpg90".data

def extsList : List (List Char) :=
  [extPng, extJpg, extJpeg, extPng32, extPng64, extPng128, extPng256, extJpg70, extJpg80, extJpg90]

/-- `".{}".format(ext)`: the dotted extension pattern searched in the path. -/
def extPat (ext : List Char) : List Char := '.' :: ext

def twoXchars : List Char := "@2x".data

/-- The `for ext in exts: ... break / else: path += "@2x"` loop over a
given extension order. -/
def rewriteLoop (path : List Char) : List (List Char) → List Char
  | [] => path ++ twoXchars
  | e :: rest =>
    if occursIn (extPat e) path then replaceAll (extPat e) (twoXchars ++ extPat e) path
    else rewriteLoop path rest

def highresRewritePath (path : List Char) : List Char :=
  rewriteLoop path extsList

/-! ## Cooperative-concurrency model of `get_url`

Many source-probing tasks run under asyncio's single-threaded cooperative
scheduler; code between `await` suspension points is atomic.  Each task's
progress through `get_url` is a program counter; the shared state is the
`domain_locks` registry (lazily created host mutexes), the holder of each
host mutex, and `response_cache`.  The `async with domain_lock` block
(create-if-absent, no suspension inside) is one atomic step; acquiring a
host mutex is enabled only while no task holds it; the whole
`session.request`/`read` window of one attempt is the in-flight period.
The model adds suspension points never removes them, so its reachable
interleavings include all real ones. -/

inductive PC where
  | start
  | ensureLock
  | acqHost
  | cacheCheck
  | attempt (k : Nat)
  | inFlight (k : Nat)
  | relHost
  | done
deriving DecidableEq, Repr

structure FetchTask where
  url : List Char
  withText : Bool
  withData : Bool
  pc : PC
deriving DecidableEq, Repr

structure Sys where
  tasks : List FetchTask
  domainLocks : List (List Char)
  lockHolder : List (List Char × Nat)
  responseCache : List (List Char × RequestResult)
deriving DecidableEq, Repr

/-- One scheduler step: some task advances by one atomic region of
`get_url`.  `budget` is the script's retry budget (3 or 2). -/
inductive Step (budget : Nat) : Sys → Sys → Prop where
  | startNoHost (s : Sys) (i : Nat) (t : FetchTask) :
      s.tasks[i]? = some t → t.pc = PC.start → urlNetloc t.url = [] →
      Step budget s { s with tasks := s.tasks.set i { t with pc := PC.done } }
  | startHost (s : Sys) (i : Nat) (t : FetchTask) :
      s.tasks[i]? = some t → t.pc = PC.start → ¬(urlNetloc t.url = []) →
      Step budget s { s with tasks := s.tasks.set i { t with pc := PC.ensureLock } }
  | ensure (s : Sys) (i : Nat) (t : FetchTask) :
      s.tasks[i]? = some t → t.pc = PC.ensureLock →
      Step budget s
        { s with
          tasks := s.tasks.set i { t with pc := PC.acqHost }
          domainLocks :=
            if urlNetloc t.url ∈ s.domainLocks then s.domainLocks
            else s.domainLocks ++ [urlNetloc t.url] }
  | acquire (s : Sys) (i : Nat) (t : FetchTask) :
      s.tasks[i]? = some t → t.pc = PC.acqHost →
      urlNetloc t.url ∈ s.domainLocks →
      alookup (urlNetloc t.url) s.lockHolder = none →
      Step budget s
        { s with
          tasks := s.tasks.set i { t with pc := PC.cacheCheck }
          lockHolder := (urlNetloc t.url, i) :: s.lockHolder }
  | cacheHit (s : Sys) (i : Nat) (t : FetchTask) (r : RequestResult) :
      s.tasks[i]? = some t → t.pc = PC.cacheCheck →
      alookup t.url s.responseCache = some r →
      Step budget s
        { s with
          tasks := s.tasks.set i { t with pc := PC.done }
          lockHolder := aerase (urlNetloc t.url) s.lockHolder }
  | cacheMiss (s : Sys) (i : Nat) (t : FetchTask) :
      s.tasks[i]? = some t → t.pc = PC.cacheCheck →
      alookup t.url s.responseCache = none →
      Step budget s { s with tasks := s.tasks.set i { t with pc := PC.attempt 0 } }
  | request (s : Sys) (i : Nat) (t : FetchTask) (k : Nat) :
      s.tasks[i]? = some t → t.pc = PC.attempt k → k < budget →
      Step budget s { s with tasks := s.tasks.set i { t with pc := PC.inFlight k } }
  | complete (s : Sys) (i : Nat) (t : FetchTask) (k : Nat) (o : TransportOutcome) :
      s.tasks[i]? = some t → t.pc = PC.inFlight k →
      Step budget s
        { s with
          tasks :=
            s.tasks.set i
              { t with pc := if k + 1 < budget then PC.attempt (k + 1) else PC.relHost }
          responseCache :=
            aset t.url (resultOf t.url t.withText t.withData o) s.responseCache }
  | release (s : Sys) (i : Nat) (t : FetchTask) :
      s.tasks[i]? = some t → t.pc = PC.relHost →
      Step budget s
        { s with
          tasks := s.tasks.set i { t with pc := PC.done }
          lockHolder := aerase (urlNetloc t.url) s.lockHolder }

structure TaskSpec where
  url : List Char
  withText : Bool
  withData : Bool
deriving DecidableEq, Repr

def initSys (specs : List TaskSpec) : Sys :=
  { tasks := specs.map (fun sp => { url := sp.url, withText := sp.withText, withData := sp.withData, pc := PC.start })
    domainLocks := []
    lockHolder := []
    responseCache := [] }

def SysReachable (budget : Nat) (specs : List TaskSpec) (s : Sys) : Prop :=
  Relation.ReflTransGen (Step budget) (initSys specs) s

/-- Program counters at which a task holds the mutex of its URL's host. -/
def holdsHostLock : PC → Bool
  | PC.cacheCheck => true
  | PC.attempt _ => true
  | PC.inFlight _ => true
  | PC.relHost => true
  | _ => false

/-- Program counters at which a task has a transport request in flight. -/
def isInFlightPC : PC → Bool
  | PC.inFlight _ => true
  | _ => false

/-- Invariant of the concurrency model: a task in any lock-holding region
of `get_url` is recorded as the holder of its host's mutex. -/
def LockInv (s : Sys) : Prop :=
  ∀ i t, s.tasks[i]? = some t → holdsHostLock t.pc = true →
    alookup (urlNetloc t.url) s.lockHolder = some i

/-! ## Auxiliary notions for the statements -/

/-- The bindings of an association list other than key `k`, in order:
used to state that an update leaves every other field, and the ordering
of those fields, unchanged. -/
def othersKept {α : Type} (k : List Char) (l : List (List Char × α)) : List (List Char × α) :=
  l.filter (fun p => !(decide (p.1 = k)))

/-- Transport outcomes classified as retried transport failures by
`get_url`'s `except` clauses. -/
def isTransportFailure : TransportOutcome → Bool
  | TransportOutcome.timeout => true
  | TransportOutcome.raised _ => true
  | TransportOutcome.response _ _ _ => false

/-! ## Concrete inputs for witnesses and counterexamples -/

def urlTileA : List Char := "http://tile.example.org/5/10/21.png".data

def urlTileB : List Char := "http://tile.example.org/5/10/22.png".data

def urlNoHost : List Char := "not-a-url".data

def okTransport : Nat → TransportOutcome :=
  fun _ => TransportOutcome.response 200 none (ReadRes.ok [7])

def failTransport : Nat → TransportOutcome :=
  fun _ => TransportOutcome.timeout

/-- Trace `[H, absent, D, absent, absent, …]`: present hashes at zooms 0
and 2 differ, with an absent entry between them. -/
def gapTrace : Nat → Option Nat :=
  fun z => if z = 0 then some 1 else if z = 2 then some 2 else none

def nameKey : List Char := "name".data

def nameVal : List Char := "CZ layer".data

def c3props : List (List Char × JVal) :=
  [(minZoomKey, JVal.num 5), (nameKey, JVal.str nameVal)]

def c3propsW : List (List Char × JVal) :=
  [(minZoomKey, JVal.num 3), (nameKey, JVal.str nameVal)]

def exDecode : List Nat → Option (Nat × Nat) :=
  fun d => if d = [1] then some (256, 256) else if d = [2] then some (512, 512) else none

def exFetch : Bool → RequestResult :=
  fun hr =>
    if hr then { status := some 200, text := some [2] }
    else { status := some 200, text := some [1] }

def exFetchBadNormal : Bool → RequestResult :=
  fun hr =>
    if hr then { status := some 200, text := some [2] }
    else { status := some 404 }

def c7pre : List Char := "http://tile.example.org/tiles/5/10/".data

def c7suf : List Char := ".png".data

def c8pre : List Char := "/tiles/5/10/21".data

def c8suf : List Char := "?token=1".data

def c8pathNoExt : List Char := "/tiles/5/10/21".data

def c9specs : List TaskSpec :=
  [{ url := urlTileA, withText := false, withData := true },
   { url := urlTileB, withText := false, withData := true }]

def c9task0 : FetchTask :=
  { url := urlTileA, withText := false, withData := true, pc := PC.start }

def c9task1 : FetchTask :=
  { url := urlTileB, withText := false, withData := true, pc := PC.start }

/-! # Helper lemmas -/

/-! ## Association lists -/

theorem alookup_aset_self {α : Type} (k : List Char) (v : α) (l : List (List Char × α)) :
    alookup k (aset k v l) = some v := by
  induction l with
  | nil => simp [aset, alookup]
  | cons p t ih =>
    by_cases h : p.1 = k
    · simp [aset, h, alookup]
    · simp [aset, h, alookup, ih]

theorem alookup_aerase_self {α : Type} (k : List Char) (l : List (List Char × α)) :
    alookup k (aerase k l) = none := by
  induction l with
  | nil => rfl
  | cons p t ih =>
    by_cases h : p.1 = k
    · simpa [aerase, List.filter_cons, h] using ih
    · simpa [aerase, List.filter_cons, h, alookup] using ih

theorem alookup_aerase_ne {α : Type} {k k' : List Char} (h : ¬(k' = k))
    (l : List (List Char × α)) : alookup k' (aerase k l) = alookup k' l := by
  induction l with
  | nil => rfl
  | cons p t ih =>
    by_cases hp : p.1 = k
    · have hp' : ¬(p.1 = k') := by rw [hp]; intro e; exact h e.symm
      have e1 : aerase k (p :: t) = aerase k t := by simp [aerase, List.filter_cons, hp]
      have e2 : alookup k' (p :: t) = alookup k' t := by simp [alookup, hp']
      rw [e1, e2]; exact ih
    · have e1 : aerase k (p :: t) = p :: aerase k t := by simp [aerase, List.filter_cons, hp]
      rw [e1]
      by_cases hq : p.1 = k'
      · simp [alookup, hq]
      · simp only [alookup, hq, if_false]
        exact ih

theorem othersKept_aset {α : Type} (k : List Char) (v : α) (l : List (List Char × α)) :
    othersKept k (aset k v l) = othersKept k l := by
  induction l with
  | nil => simp [aset, othersKept]
  | cons p t ih =>
    by_cases h : p.1 = k
    · simp [aset, h, othersKept, List.filter_cons]
    · simpa [aset, h, othersKept, List.filter_cons] using ih

theorem othersKept_aerase {α : Type} (k : List Char) (l : List (List Char × α)) :
    othersKept k (aerase k l) = othersKept k l := by
  simp [othersKept, aerase, List.filter_filter]

/-! ## Substring counting and `replaceAll` -/

theorem isPre_append_self (n b : List Char) : isPre n (n ++ b) = true := by
  induction n with
  | nil => rfl
  | cons a as ih => simp [isPre, ih]

theorem numOccs_zero_iff (n : List Char) :
    ∀ h, numOccs n h = 0 ↔ occursIn n h = false := by
  intro h
  induction h with
  | nil =>
    cases hp : isPre n [] <;> simp [numOccs, occursIn, hp]
  | cons x t ih =>
    cases hp : isPre n (x :: t) <;> simp [numOccs, occursIn, hp, ih]

theorem numOccs_append_le (n : List Char) : ∀ c d, numOccs n d ≤ numOccs n (c ++ d) := by
  intro c d
  induction c with
  | nil => simp
  | cons x c' ih =>
    rw [List.cons_append]
    have e : numOccs n (x :: (c' ++ d))
        = (if isPre n (x :: (c' ++ d)) then 1 else 0) + numOccs n (c' ++ d) := rfl
    cases hi : isPre n (x :: (c' ++ d)) with
    | true => rw [hi] at e; simp only [if_true] at e; omega
    | false => rw [hi] at e; simp only [Bool.false_eq_true, if_false] at e; omega

theorem numOccs_decomp_pos (n : List Char) (hne : ¬(n = [])) :
    ∀ pre suf, 1 ≤ numOccs n (pre ++ n ++ suf) := by
  intro pre suf
  induction pre with
  | nil =>
    match n, hne with
    | a :: as, _ =>
      have hp : isPre (a :: as) ((a :: as) ++ suf) = true := isPre_append_self _ _
      simp only [List.nil_append]
      show 1 ≤ (if isPre (a :: as) ((a :: as) ++ suf) then 1 else 0) + numOccs (a :: as) (as ++ suf)
      rw [hp]
      simp
  | cons p pre' ih =>
    show 1 ≤ (if isPre n (p :: (pre' ++ n ++ suf)) then 1 else 0) + numOccs n (pre' ++ n ++ suf)
    omega

theorem needle_length_pos (n : List Char) (hne : ¬(n = [])) : 1 ≤ n.length := by
  cases n with
  | nil => exact absurd rfl hne
  | cons a as => simp

theorem replaceAllF_nil (n r : List Char) (f : Nat) : replaceAllF n r f [] = [] := by
  cases f <;> rfl

theorem replaceAllF_congr (n r : List Char) (hne : ¬(n = [])) :
    ∀ f1 f2 l, l.length ≤ f1 → l.length ≤ f2 →
      replaceAllF n r f1 l = replaceAllF n r f2 l := by
  intro f1
  induction f1 with
  | zero =>
    intro f2 l h1 _
    have : l = [] := by
      cases l with
      | nil => rfl
      | cons x t => simp at h1
    subst this
    rw [replaceAllF_nil, replaceAllF_nil]
  | succ g ih =>
    intro f2 l h1 h2
    cases l with
    | nil => rw [replaceAllF_nil, replaceAllF_nil]
    | cons x t =>
      cases f2 with
      | zero => simp at h2
      | succ g2 =>
        have hn1 : 1 ≤ n.length := needle_length_pos n hne
        simp only [replaceAllF]
        by_cases hp : isPre n (x :: t) = true
        · rw [hp]
          simp only [if_true]
          congr 1
          apply ih
          · simp only [List.length_drop, List.length_cons]
            simp only [List.length_cons] at h1
            omega
          · simp only [List.length_drop, List.length_cons]
            simp only [List.length_cons] at h2
            omega
        · rw [Bool.not_eq_true] at hp
          rw [hp]
          simp only [Bool.false_eq_true, if_false]
          congr 1
          apply ih
          · simp only [List.length_cons] at h1; omega
          · simp only [List.length_cons] at h2; omega

theorem replaceAll_cons_pos (n r : List Char) (hne : ¬(n = [])) (x : Char) (t : List Char)
    (hp : isPre n (x :: t) = true) :
    replaceAll n r (x :: t) = r ++ replaceAll n r (List.drop n.length (x :: t)) := by
  have hn1 : 1 ≤ n.length := needle_length_pos n hne
  show replaceAllF n r (x :: t).length (x :: t) = _
  simp only [List.length_cons, replaceAllF, hp, if_true]
  congr 1
  apply replaceAllF_congr n r hne
  · simp only [List.length_drop, List.length_cons]; omega
  · exact Nat.le_refl _

theorem replaceAll_cons_neg (n r : List Char) (x : Char) (t : List Char)
    (hp : isPre n (x :: t) = false) :
    replaceAll n r (x :: t) = x :: replaceAll n r t := by
  show replaceAllF n r (x :: t).length (x :: t) = _
  simp only [List.length_cons, replaceAllF, hp, Bool.false_eq_true, if_false]
  rfl

theorem replaceAll_not_occurs (n r : List Char) :
    ∀ h, occursIn n h = false → replaceAll n r h = h := by
  intro h
  induction h with
  | nil => intro _; rfl
  | cons x t ih =>
    intro hocc
    simp only [occursIn, Bool.or_eq_false_iff] at hocc
    rw [replaceAll_cons_neg n r x t hocc.1, ih hocc.2]

theorem replaceAll_unique (n r : List Char) (hne : ¬(n = [])) :
    ∀ pre suf, numOccs n (pre ++ n ++ suf) = 1 →
      replaceAll n r (pre ++ n ++ suf) = pre ++ r ++ suf := by
  intro pre
  induction pre with
  | nil =>
    intro suf h1
    simp only [List.nil_append] at h1 ⊢
    match n, hne, h1 with
    | a :: as, hne, h1 =>
      have hp : isPre (a :: as) ((a :: as) ++ suf) = true := isPre_append_self _ _
      have hstep := replaceAll_cons_pos (a :: as) r hne a (as ++ suf) hp
      rw [show (a :: as) ++ suf = a :: (as ++ suf) from rfl]
      rw [hstep]
      have hdrop : List.drop (a :: as).length (a :: (as ++ suf)) = suf := by
        rw [show a :: (as ++ suf) = (a :: as) ++ suf from rfl]
        exact List.drop_left _ _
      rw [hdrop]
      have hrest : numOccs (a :: as) (as ++ suf) = 0 := by
        have : numOccs (a :: as) (a :: (as ++ suf))
            = (if isPre (a :: as) (a :: (as ++ suf)) then 1 else 0) + numOccs (a :: as) (as ++ suf) := rfl
        rw [show a :: (as ++ suf) = (a :: as) ++ suf from rfl] at this
        rw [hp] at this
        simp only [if_true] at this
        omega
      have hsuf : numOccs (a :: as) suf = 0 :=
        Nat.le_antisymm (hrest ▸ numOccs_append_le (a :: as) as suf) (Nat.zero_le _)
      rw [replaceAll_not_occurs (a :: as) r suf ((numOccs_zero_iff _ _).mp hsuf)]
  | cons p pre' ih =>
    intro suf h1
    have hpos : 1 ≤ numOccs n (pre' ++ n ++ suf) := numOccs_decomp_pos n hne pre' suf
    have h2 : numOccs n (p :: (pre' ++ n ++ suf))
        = (if isPre n (p :: (pre' ++ n ++ suf)) then 1 else 0) + numOccs n (pre' ++ n ++ suf) := rfl
    have hlist : (p :: pre') ++ n ++ suf = p :: (pre' ++ n ++ suf) := rfl
    rw [hlist] at h1
    cases hp : isPre n (p :: (pre' ++ n ++ suf)) with
    | true => rw [hp] at h2; simp only [if_true] at h2; omega
    | false =>
      rw [hp] at h2
      simp only [Bool.false_eq_true, if_false, Nat.zero_add] at h2
      rw [hlist, replaceAll_cons_neg n r p _ hp, ih suf (by omega)]
      rfl

theorem occursIn_of_numOccs_one (n : List Char) (h : List Char) (h1 : numOccs n h = 1) :
    occursIn n h = true := by
  cases hocc : occursIn n h with
  | true => rfl
  | false =>
    have := (numOccs_zero_iff n h).mpr hocc
    omega

/-! ## The retry loop of `get_url` -/

theorem getUrlAttempts_succ (url : List Char) (wt wd : Bool) (tr : Nat → TransportOutcome)
    (n : Nat) (st : FetchState) :
    getUrlAttempts url wt wd tr (n + 1) st
      = getUrlAttempts url wt wd tr n
          { st with
            transportCalls := st.transportCalls + 1
            responseCache := aset url (resultOf url wt wd (tr st.transportCalls)) st.responseCache } := by
  simp [getUrlAttempts, namedtupleClassExceptionIsNone]

theorem getUrlAttempts_calls (url : List Char) (wt wd : Bool) (tr : Nat → TransportOutcome) :
    ∀ n st, (getUrlAttempts url wt wd tr n st).transportCalls = st.transportCalls + n := by
  intro n
  induction n with
  | zero => intro st; rfl
  | succ m ih =>
    intro st
    rw [getUrlAttempts_succ, ih]
    simp
    omega

theorem getUrlAttempts_locks (url : List Char) (wt wd : Bool) (tr : Nat → TransportOutcome) :
    ∀ n st, (getUrlAttempts url wt wd tr n st).domainLocks = st.domainLocks := by
  intro n
  induction n with
  | zero => intro st; rfl
  | succ m ih =>
    intro st
    rw [getUrlAttempts_succ, ih]

theorem getUrlAttempts_cache (url : List Char) (wt wd : Bool) (tr : Nat → TransportOutcome) :
    ∀ n st, 1 ≤ n →
      alookup url (getUrlAttempts url wt wd tr n st).responseCache
        = some (resultOf url wt wd (tr (st.transportCalls + n - 1))) := by
  intro n
  induction n with
  | zero => intro st h; omega
  | succ m ih =>
    intro st _
    rw [getUrlAttempts_succ]
    cases m with
    | zero =>
      show alookup url (aset url _ st.responseCache) = _
      rw [alookup_aset_self]
      have : st.transportCalls + (0 + 1) - 1 = st.transportCalls := by omega
      rw [this]
    | succ m' =>
      rw [ih _ (by omega)]
      have : st.transportCalls + 1 + (m' + 1) - 1 = st.transportCalls + (m' + 1 + 1) - 1 := by omega
      simp only [this]

/-! ## `get_url`: lock creation and cached path -/

theorem ensureLockState_responseCache (url : List Char) (st : FetchState) :
    (ensureLockState url st).responseCache = st.responseCache := rfl

theorem ensureLockState_transportCalls (url : List Char) (st : FetchState) :
    (ensureLockState url st).transportCalls = st.transportCalls := rfl

theorem ensureLockState_mem (url : List Char) (st : FetchState) :
    urlNetloc url ∈ (ensureLockState url st).domainLocks := by
  by_cases h : urlNetloc url ∈ st.domainLocks
  · simp [ensureLockState, h]
  · simp [ensureLockState, h]

theorem ensureLockState_of_mem (url : List Char) (st : FetchState)
    (h : urlNetloc url ∈ st.domainLocks) : ensureLockState url st = st := by
  simp [ensureLockState, h]

theorem getUrl_cached (budget : Nat) (tr : Nat → TransportOutcome) (url : List Char)
    (wt wd : Bool) (st : FetchState) (r : RequestResult)
    (hn : ¬(urlNetloc url = [])) (hm : urlNetloc url ∈ st.domainLocks)
    (hc : alookup url st.responseCache = some r) :
    getUrl budget tr url wt wd st = (r, st) := by
  unfold getUrl
  rw [if_neg hn, ensureLockState_of_mem url st hm]
  simp [hc]

/-! # Claims -/

/-- C5. For every URL whose parse yields no host component, `get_url`
returns immediately with an exception result: the shared state — cache,
`domain_locks`, and the transport-invocation count — is returned
unchanged, so zero transport calls are made. -/
theorem c5_no_host_short_circuit (budget : Nat) (tr : Nat → TransportOutcome)
    (url : List Char) (wt wd : Bool) (st : FetchState)
    (h : urlNetloc url = []) :
    getUrl budget tr url wt wd st
      = ({ exception := some ("Could not parse URL: ".data ++ url) }, st) := by
  simp [getUrl, h]

/-- Witness for C5 at the concrete URL `not-a-url` (no host component). -/
theorem c5_no_host_short_circuit_witness :
    urlNetloc urlNoHost = []
    ∧ getUrl 3 okTransport urlNoHost false true {}
        = ({ exception := some ("Could not parse URL: ".data ++ urlNoHost) }, {}) :=
  ⟨by decide, c5_no_host_short_circuit 3 okTransport urlNoHost false true {} (by decide)⟩

theorem resultOf_failure (url : List Char) (wt wd : Bool) (o : TransportOutcome)
    (h : isTransportFailure o = true) :
    (resultOf url wt wd o).status = none ∧ (resultOf url wt wd o).exception.isSome = true := by
  cases o with
  | timeout => simp [resultOf]
  | raised m => simp [resultOf]
  | response s t r => simp [isTransportFailure] at h

/-- `get_url` on an uncached URL with a host: the else-branch runs the
retry loop on the lock-ensured state. -/
theorem getUrl_uncached (budget : Nat) (tr : Nat → TransportOutcome) (url : List Char)
    (wt wd : Bool) (st : FetchState)
    (hn : ¬(urlNetloc url = [])) (hc : alookup url st.responseCache = none) :
    getUrl budget tr url wt wd st
      = ((alookup url (getUrlAttempts url wt wd tr budget (ensureLockState url st)).responseCache).getD {},
         getUrlAttempts url wt wd tr budget (ensureLockState url st)) := by
  unfold getUrl
  rw [if_neg hn]
  dsimp only
  rw [ensureLockState_responseCache, hc]
  rfl

/-- C10. For every URL with a host component and every transport behavior
(success, timeout, any raised transport or read exception, in any mode),
`get_url` is total: it terminates with a `RequestResult` (totality is by
construction of the embedding — every exception path of the source is a
caught branch of `resultOf`), and on return the response cache holds an
entry for the URL which is exactly the returned value. -/
theorem c10_fetch_total_and_caches (budget : Nat) (tr : Nat → TransportOutcome)
    (url : List Char) (wt wd : Bool) (st : FetchState)
    (hn : ¬(urlNetloc url = [])) (hb : 1 ≤ budget) :
    alookup url (getUrl budget tr url wt wd st).2.responseCache
      = some (getUrl budget tr url wt wd st).1 := by
  unfold getUrl
  rw [if_neg hn]
  cases hcc : (alookup url (ensureLockState url st).responseCache) with
  | some v => simp [hcc]
  | none =>
    have h1 := getUrlAttempts_cache url wt wd tr budget (ensureLockState url st) hb
    simp [hcc, h1]

/-- Witness for C10: a concrete uncached fetch with a successful transport. -/
theorem c10_fetch_total_and_caches_witness :
    alookup urlTileA (getUrl 3 okTransport urlTileA false true {}).2.responseCache
      = some (getUrl 3 okTransport urlTileA false true {}).1 :=
  c10_fetch_total_and_caches 3 okTransport urlTileA false true {} (by decide) (by decide)

/-- C6. For every uncached URL with a host whose every transport attempt
fails (timeout or raised exception), `get_url` performs exactly `budget`
transport invocations (`budget` is 3 in `highres_tile_checker.py` and 2
in `sync_tms_minzoom.py`), caches an exception result (status `None`) for
the URL, returns it, and any later `get_url` of the same URL in the same
run — any budget, any transport behavior, any mode — returns the cached
failure with the shared state untouched, hence zero further transport
calls. -/
theorem c6_retry_budget_exhaustion (budget : Nat) (tr : Nat → TransportOutcome)
    (url : List Char) (wt wd : Bool) (st : FetchState)
    (hb : 1 ≤ budget) (hn : ¬(urlNetloc url = []))
    (hc : alookup url st.responseCache = none)
    (hf : ∀ k, isTransportFailure (tr k) = true) :
    ((getUrl budget tr url wt wd st).2.transportCalls = st.transportCalls + budget)
  ∧ ((getUrl budget tr url wt wd st).1.status = none)
  ∧ ((getUrl budget tr url wt wd st).1.exception.isSome = true)
  ∧ (alookup url (getUrl budget tr url wt wd st).2.responseCache
      = some (getUrl budget tr url wt wd st).1)
  ∧ (∀ budget2 tr2 wt2 wd2,
      getUrl budget2 tr2 url wt2 wd2 (getUrl budget tr url wt wd st).2
        = ((getUrl budget tr url wt wd st).1, (getUrl budget tr url wt wd st).2)) := by
  have hmain := getUrl_uncached budget tr url wt wd st hn hc
  have hcache := getUrlAttempts_cache url wt wd tr budget (ensureLockState url st) hb
  have hfail := resultOf_failure url wt wd
    (tr ((ensureLockState url st).transportCalls + budget - 1)) (hf _)
  have hres : (getUrl budget tr url wt wd st).1
      = resultOf url wt wd (tr ((ensureLockState url st).transportCalls + budget - 1)) := by
    rw [hmain, hcache]
    rfl
  refine ⟨?_, ?_, ?_, ?_, ?_⟩
  · rw [hmain]
    show (getUrlAttempts url wt wd tr budget (ensureLockState url st)).transportCalls = _
    rw [getUrlAttempts_calls, ensureLockState_transportCalls]
  · rw [hres]; exact hfail.1
  · rw [hres]; exact hfail.2
  · rw [hmain]
    dsimp only
    rw [hcache]
    rfl
  · intro budget2 tr2 wt2 wd2
    apply getUrl_cached budget2 tr2 url wt2 wd2 _ _ hn
    · rw [hmain]
      dsimp only
      rw [getUrlAttempts_locks]
      exact ensureLockState_mem url st
    · rw [hmain]
      dsimp only
      rw [hcache]
      rfl

/-- Witness for C6: the highres script's budget of 3 on an always-timing-out
transport from the empty run state. -/
theorem c6_retry_budget_exhaustion_witness :
    (getUrl 3 failTransport urlTileA false true {}).2.transportCalls = FetchState.transportCalls {} + 3 :=
  (c6_retry_budget_exhaustion 3 failTransport urlTileA false true {}
    (by decide) (by decide) rfl (fun _ => rfl)).1

/-- C1 (code bug in both scripts' `get_url`).  The retry loop's break test
is `if RequestResult.exception is None:` — the namedtuple *class*
attribute, never `None` — so the break never fires: a single fetch of an
uncached URL with a transport that succeeds on every attempt still
invokes the transport 3 times (highres script) respectively 2 times
(minzoom script), contradicting the claim's "the underlying transport is
invoked at most once in total" and the function's own docstring ("the
same url is not queried more than once"). -/
theorem c1_transport_invoked_thrice_on_success :
    ((getUrl 3 okTransport urlTileA false true {}).2.transportCalls = 3)
  ∧ ((getUrl 2 okTransport urlTileA false true {}).2.transportCalls = 2)
  ∧ ((getUrl 3 okTransport urlTileA false true {}).1
      = { status := some 200, text := some [7] }) := by
  decide

/-! ## The minzoom sweep -/

theorem trace_getLast (f : Nat → Option Nat) (w : Nat) :
    ((List.range (w + 1)).map f).getLast? = some (f w) := by
  rw [List.range_succ, List.map_append]
  exact List.getLast?_concat _

theorem trace_snoc (f : Nat → Option Nat) (zoom : Nat) :
    ((List.range zoom).map f) ++ [f zoom] = (List.range (zoom + 1)).map f := by
  rw [List.range_succ, List.map_append]
  rfl

theorem minzoomScanGo_spec (f : Nat → Option Nat) :
    ∀ fuel zoom, minzoomScanGo f fuel zoom ((List.range zoom).map f)
      = firstSuchZoom (stopHere f) fuel zoom := by
  intro fuel
  induction fuel with
  | zero => intro zoom; rfl
  | succ g ih =>
    intro zoom
    cases hz : f zoom with
    | none =>
      have hs : stopHere f zoom = false := by
        cases zoom <;> simp [stopHere, hz]
      have hprev : ((List.range zoom).map f) ++ [none] = (List.range (zoom + 1)).map f := by
        have := trace_snoc f zoom
        rw [hz] at this
        exact this
      simp only [minzoomScanGo, hz, firstSuchZoom, hs, Bool.false_eq_true, if_false]
      rw [hprev]
      exact ih (zoom + 1)
    | some h =>
      cases zoom with
      | zero =>
        have hs : stopHere f 0 = false := by simp [stopHere]
        have hprev : (([] : List (Option Nat))) ++ [some h] = (List.range 1).map f := by
          have := trace_snoc f 0
          rw [hz] at this
          exact this
        simp only [minzoomScanGo, hz, firstSuchZoom, hs, Bool.false_eq_true, if_false,
          List.range_zero, List.map_nil, List.getLast?_nil]
        rw [hprev]
        exact ih 1
      | succ w =>
        have hl : ((List.range (w + 1)).map f).getLast? = some (f w) := trace_getLast f w
        have hprev : ((List.range (w + 1)).map f) ++ [some h] = (List.range (w + 2)).map f := by
          have := trace_snoc f (w + 1)
          rw [hz] at this
          exact this
        cases hw : f w with
        | some h' =>
          by_cases hne : h' = h
          · have hs : stopHere f (w + 1) = false := by
              simp [stopHere, hz, hw, hne]
            simp only [minzoomScanGo, hz, hl, hw, hne, not_true_eq_false, if_false,
              firstSuchZoom, hs, Bool.false_eq_true]
            rw [hprev]
            exact ih (w + 2)
          · have hs : stopHere f (w + 1) = true := by
              simp [stopHere, hz, hw]
              exact hne
            have hlen : ((List.range (w + 1)).map f).length = w + 1 := by simp
            simp only [minzoomScanGo, hz, hl, hw, hne, not_false_eq_true, if_true,
              firstSuchZoom, hs, if_true, hlen]
        | none =>
          have hs : stopHere f (w + 1) = false := by
            simp [stopHere, hz, hw]
          simp only [minzoomScanGo, hz, hl, hw, firstSuchZoom, hs, Bool.false_eq_true, if_false]
          rw [hprev]
          exact ih (w + 2)

/-- C2 (amended).  Quantified over all hash traces: the sweep stops at the
first zoom (below 20) whose hash is present and whose *immediately
preceding* trace entry is a present hash different from it — not the most
recent present hash recorded earlier — and reports that zoom; if no zoom
below 20 satisfies this, no minimum zoom is determined. -/
theorem c2_minzoom_stop_rule (f : Nat → Option Nat) :
    minzoomScan f = firstSuchZoom (stopHere f) 20 0 := by
  have := minzoomScanGo_spec f 20 0
  simpa [minzoomScan] using this

/-- C2 counterexample.  On the trace `[H, absent, D, …]` (present hashes 1
at zoom 0 and 2 at zoom 2, absent in between), the spec's stop rule — the
most recent previously recorded *present* hash differs from the current
one — fires at zoom 2, but the code's sweep, which compares only
`previous_images[-1]`, never stops and reports no minimum zoom. -/
theorem c2_gap_trace_counterexample :
    (gapTrace 2 = some 2)
  ∧ (specLastPresentBefore gapTrace 2 = some 1)
  ∧ (specStopHere gapTrace 2 = true)
  ∧ (firstSuchZoom (specStopHere gapTrace) 20 0 = some 2)
  ∧ (minzoomScan gapTrace = none) := by
  decide

/-! ## The minzoom write-back -/

/-- C3 counterexample.  With an existing `min_zoom` of 5 and a probe
outcome of `null` obtained because the 20-zoom loop completed without
stopping, the new value differs from the existing one (`pyEqMinzoom` is
false), yet the code — whose whole comparison block is guarded by
`if min_zoom is not None:` — performs no comparison and no write, leaving
the record untouched, where the claim requires the field to be removed
and the record persisted. -/
theorem c3_null_outcome_counterexample :
    (pyEqMinzoom none (alookup minZoomKey c3props) = false)
  ∧ (minzoomUpdate none c3props = (c3props, false)) := by
  decide

/-- C3 (amended).  A `null` probe outcome — in particular one obtained
because the loop completed all 20 zooms — causes no comparison and no
write at all.  Only a discovered zoom is post-processed: `0` is
normalised to `null`, the result compared with the existing `min_zoom`
(absent treated as equal to `null`); on equality nothing is written; on
difference the field is set (or removed when the normalised value is
`null`) and the record is persisted with every other field, and the
ordering of those fields, unchanged. -/
theorem c3_writeback_rule (props : List (List Char × JVal)) :
    (minzoomUpdate none props = (props, false))
  ∧ (∀ mz0, pyEqMinzoom (if mz0 = 0 then none else some mz0) (alookup minZoomKey props) = true →
      minzoomUpdate (some mz0) props = (props, false))
  ∧ (∀ mz0, pyEqMinzoom (if mz0 = 0 then none else some mz0) (alookup minZoomKey props) = false →
      ((minzoomUpdate (some mz0) props).2 = true
      ∧ alookup minZoomKey (minzoomUpdate (some mz0) props).1
          = (if mz0 = 0 then none else some (JVal.num (mz0 : Int)))
      ∧ othersKept minZoomKey (minzoomUpdate (some mz0) props).1
          = othersKept minZoomKey props)) := by
  refine ⟨rfl, ?_, ?_⟩
  · intro mz0 heq
    simp [minzoomUpdate, heq]
  · intro mz0 hne
    by_cases h0 : mz0 = 0
    · have hmz : (if mz0 = 0 then (none : Option Nat) else some mz0) = none := if_pos h0
      rw [hmz] at hne
      have e : minzoomUpdate (some mz0) props = (aerase minZoomKey props, true) := by
        unfold minzoomUpdate
        dsimp only
        rw [hmz, hne]
        simp only [Bool.false_eq_true, if_false]
      rw [e]
      exact ⟨rfl, by rw [if_pos h0]; exact alookup_aerase_self minZoomKey props,
        othersKept_aerase minZoomKey props⟩
    · have hmz : (if mz0 = 0 then (none : Option Nat) else some mz0) = some mz0 := if_neg h0
      rw [hmz] at hne
      have e : minzoomUpdate (some mz0) props
          = (aset minZoomKey (JVal.num (mz0 : Int)) props, true) := by
        unfold minzoomUpdate
        dsimp only
        rw [hmz, hne]
        simp only [Bool.false_eq_true, if_false]
      rw [e]
      exact ⟨rfl, by rw [if_neg h0]; exact alookup_aset_self minZoomKey _ props,
        othersKept_aset minZoomKey _ props⟩

/-- Witness for C3 (amended): a discovered zoom of 7 against an existing
`min_zoom` of 3 sets the field and reports a write. -/
theorem c3_writeback_rule_witness :
    ((minzoomUpdate (some 7) c3propsW).2 = true
  ∧ alookup minZoomKey (minzoomUpdate (some 7) c3propsW).1
      = (if 7 = 0 then none else some (JVal.num ((7 : Nat) : Int)))
  ∧ othersKept minZoomKey (minzoomUpdate (some 7) c3propsW).1
      = othersKept minZoomKey c3propsW) :=
  (c3_writeback_rule c3propsW).2.2 7 (by decide)

/-! ## The highres probe decision -/

theorem testZoomCheck_true_iff (decode : List Nat → Option (Nat × Nat))
    (r : RequestResult) (hr : Bool) :
    testZoomCheck decode r hr = true ↔
      (r.status = some 200 ∧ ∃ d, r.text = some d ∧
        decode d = some (if hr then (512, 512) else (256, 256))) := by
  unfold testZoomCheck
  by_cases hs : r.status = some 200
  · rw [hs]
    simp only [beq_self_eq_true, if_true, true_and]
    cases ht : r.text with
    | none => simp
    | some d =>
      cases hd : decode d with
      | none => simp [hd]
      | some wh =>
        cases hr <;> simp [hd, beq_iff_eq]
  · have hb : (r.status == some 200) = false := by
      cases hbe : r.status == some 200
      · rfl
      · exact absurd (eq_of_beq hbe) hs
    rw [hb]
    simp [hs]

/-- C4. The highres probe reports "supports @2x" iff the normal fetch has
status 200 with a body decoding to exactly 256×256 and the `@2x` fetch
has status 200 with a body decoding to exactly 512×512; any non-200
status, missing body, decode failure or wrong dimensions at either step
yields "not supported".  Moreover the probe performs at most the two
fetches, and when the normal-resolution check fails the `@2x` variant is
never fetched. -/
theorem c4_highres_support_iff (decode : List Nat → Option (Nat × Nat))
    (fetch : Bool → RequestResult) :
    ((highresProbe decode fetch).1 = true ↔
      ((fetch false).status = some 200
        ∧ (∃ d, (fetch false).text = some d ∧ decode d = some (256, 256))
        ∧ (fetch true).status = some 200
        ∧ (∃ d, (fetch true).text = some d ∧ decode d = some (512, 512))))
  ∧ ((highresProbe decode fetch).2.length ≤ 2)
  ∧ (testZoomCheck decode (fetch false) false = false → (highresProbe decode fetch).2 = [false])
  ∧ (testZoomCheck decode (fetch false) false = true → (highresProbe decode fetch).2 = [false, true]) := by
  cases h1 : testZoomCheck decode (fetch false) false with
  | false =>
    have e : highresProbe decode fetch = (false, [false]) := by
      unfold highresProbe
      rw [h1]
      simp
    rw [e]
    refine ⟨?_, by simp, (fun _ => rfl), (fun hc => nomatch hc)⟩
    constructor
    · intro h; cases h
    · rintro ⟨ha, hb, -, -⟩
      have h2 : testZoomCheck decode (fetch false) false = true :=
        (testZoomCheck_true_iff decode (fetch false) false).mpr ⟨ha, hb⟩
      rw [h1] at h2
      cases h2
  | true =>
    have e : highresProbe decode fetch
        = (testZoomCheck decode (fetch true) true, [false, true]) := by
      unfold highresProbe
      rw [h1]
      simp
    rw [e]
    refine ⟨?_, by simp, (fun hc => nomatch hc), (fun _ => rfl)⟩
    constructor
    · intro h2
      obtain ⟨ha, hb⟩ := (testZoomCheck_true_iff decode (fetch false) false).mp h1
      obtain ⟨hc, hd⟩ := (testZoomCheck_true_iff decode (fetch true) true).mp h2
      exact ⟨ha, hb, hc, hd⟩
    · rintro ⟨-, -, hc, hd⟩
      exact (testZoomCheck_true_iff decode (fetch true) true).mpr ⟨hc, hd⟩

/-- Witness for C4: a 256×256 normal tile plus a 512×512 `@2x` tile yield
"supported"; a failing normal fetch stops the probe after one fetch. -/
theorem c4_highres_support_iff_witness :
    ((highresProbe exDecode exFetch).1 = true)
  ∧ ((highresProbe exDecode exFetchBadNormal).2 = [false]) :=
  ⟨(c4_highres_support_iff exDecode exFetch).1.mpr
     ⟨rfl, ⟨[1], rfl, by decide⟩, rfl, ⟨[2], rfl, by decide⟩⟩,
   (c4_highres_support_iff exDecode exFetchBadNormal).2.2.1 (by decide)⟩

/-! ## URL template substitution -/

/-- C7.  The `y` placeholder substitution checks `{-y}`, `{!y}`, `{y}` in
that priority order and substitutes `2^zoom - 1 - row`,
`2^(zoom-1) - 1 - row`, and `row` respectively; each clause is stated for
a template containing the placeholder exactly once (the `{!y}` clause
under `1 ≤ zoom`, where the Python expression `2 ** (zoom - 1)` is an
integer).  In particular, with zoom 5 and row 10: `{-y}` substitutes 21
and `{!y}` substitutes 5. -/
theorem c7_y_substitution (zoom row : Nat) (pre suf : List Char) :
    (numOccs yFlipPat (pre ++ yFlipPat ++ suf) = 1 →
      substituteY (pre ++ yFlipPat ++ suf) zoom row
        = pre ++ intChars ((2 : Int) ^ zoom - 1 - row) ++ suf)
  ∧ (occursIn yFlipPat (pre ++ yAltPat ++ suf) = false →
     numOccs yAltPat (pre ++ yAltPat ++ suf) = 1 → 1 ≤ zoom →
      substituteY (pre ++ yAltPat ++ suf) zoom row
        = pre ++ intChars ((2 : Int) ^ (zoom - 1) - 1 - row) ++ suf)
  ∧ (occursIn yFlipPat (pre ++ yPlainPat ++ suf) = false →
     occursIn yAltPat (pre ++ yPlainPat ++ suf) = false →
     numOccs yPlainPat (pre ++ yPlainPat ++ suf) = 1 →
      substituteY (pre ++ yPlainPat ++ suf) zoom row
        = pre ++ intChars (row : Int) ++ suf)
  ∧ ((2 : Int) ^ (5 : Nat) - 1 - 10 = 21)
  ∧ ((2 : Int) ^ ((5 : Nat) - 1) - 1 - 10 = 5) := by
  refine ⟨?_, ?_, ?_, by decide, by decide⟩
  · intro h1
    have hocc : occursIn yFlipPat (pre ++ yFlipPat ++ suf) = true :=
      occursIn_of_numOccs_one _ _ h1
    unfold substituteY
    simp only [hocc, if_true]
    exact replaceAll_unique yFlipPat _ (by decide) pre suf h1
  · intro h0 h1 _
    have hocc : occursIn yAltPat (pre ++ yAltPat ++ suf) = true :=
      occursIn_of_numOccs_one _ _ h1
    unfold substituteY
    simp only [h0, hocc, Bool.false_eq_true, if_false, if_true]
    exact replaceAll_unique yAltPat _ (by decide) pre suf h1
  · intro h0 h0' h1
    unfold substituteY
    simp only [h0, h0', Bool.false_eq_true, if_false]
    exact replaceAll_unique yPlainPat _ (by decide) pre suf h1

/-- Witness for C7: a concrete template with a single `{-y}` at zoom 5,
row 10 substitutes 21. -/
theorem c7_y_substitution_witness :
    substituteY (c7pre ++ yFlipPat ++ c7suf) 5 10
      = c7pre ++ intChars ((2 : Int) ^ (5 : Nat) - 1 - 10) ++ c7suf :=
  (c7_y_substitution 5 10 c7pre c7suf).1 (by decide)

/-! ## The `@2x` path rewrite -/

theorem rewriteLoop_hit :
    ∀ (l : List (List Char)) (path pre suf ext : List Char),
      ext ∈ l →
      (∀ e ∈ l, ¬(e = ext) → occursIn (extPat e) path = false) →
      path = pre ++ extPat ext ++ suf →
      numOccs (extPat ext) path = 1 →
      rewriteLoop path l = pre ++ twoXchars ++ extPat ext ++ suf := by
  intro l
  induction l with
  | nil =>
    intro path pre suf ext hmem
    cases hmem
  | cons e rest ih =>
    intro path pre suf ext hmem hothers hdecomp hone
    by_cases he : e = ext
    · subst he
      have hocc : occursIn (extPat e) path = true := occursIn_of_numOccs_one _ _ hone
      unfold rewriteLoop
      simp only [hocc, if_true]
      subst hdecomp
      have hres := replaceAll_unique (extPat e) (twoXchars ++ extPat e)
        (by simp [extPat]) pre suf hone
      rw [hres]
      simp [List.append_assoc]
    · have hno : occursIn (extPat e) path = false :=
        hothers e (List.mem_cons_self e rest) he
      unfold rewriteLoop
      simp only [hno, Bool.false_eq_true, if_false]
      have hmem' : ext ∈ rest := by
        cases hmem with
        | head => exact absurd rfl he
        | tail _ h => exact h
      exact ih path pre suf ext hmem'
        (fun e' he' hne => hothers e' (List.mem_cons_of_mem _ he') hne) hdecomp hone

theorem rewriteLoop_miss :
    ∀ (l : List (List Char)) (path : List Char),
      (∀ e ∈ l, occursIn (extPat e) path = false) →
      rewriteLoop path l = path ++ twoXchars := by
  intro l path
  induction l with
  | nil => intro _; rfl
  | cons e rest ih =>
    intro h
    have hno : occursIn (extPat e) path = false := h e (List.mem_cons_self e rest)
    unfold rewriteLoop
    simp only [hno, Bool.false_eq_true, if_false]
    exact ih (fun e' he' => h e' (List.mem_cons_of_mem _ he'))

/-- C8.  For a path containing exactly one occurrence of a known raster
extension (one known extension, at one position, and no other known
extension anywhere), the highres rewrite inserts `@2x` immediately before
that extension; for a path containing none of the known extensions, `@2x`
is appended to the end of the path.  In both cases exactly one rewrite is
applied, and the result is independent of the unspecified iteration order
of the Python set literal. -/
theorem c8_at2x_rewrite (path pre suf ext : List Char) :
    (ext ∈ extsList →
     (∀ e ∈ extsList, ¬(e = ext) → occursIn (extPat e) path = false) →
     path = pre ++ extPat ext ++ suf →
     numOccs (extPat ext) path = 1 →
     highresRewritePath path = pre ++ twoXchars ++ extPat ext ++ suf)
  ∧ ((∀ e ∈ extsList, occursIn (extPat e) path = false) →
     highresRewritePath path = path ++ twoXchars) := by
  constructor
  · intro h1 h2 h3 h4
    exact rewriteLoop_hit extsList path pre suf ext h1 h2 h3 h4
  · intro h
    exact rewriteLoop_miss extsList path h

/-- Witness for C8: `/tiles/5/10/21.png?token=1` gains `@2x` before
`.png`; the extension-free `/tiles/5/10/21` gains a trailing `@2x`. -/
theorem c8_at2x_rewrite_witness :
    (highresRewritePath (c8pre ++ extPat extPng ++ c8suf)
       = c8pre ++ twoXchars ++ extPat extPng ++ c8suf)
  ∧ (highresRewritePath c8pathNoExt = c8pathNoExt ++ twoXchars) :=
  ⟨(c8_at2x_rewrite (c8pre ++ extPat extPng ++ c8suf) c8pre c8suf extPng).1
     (by decide) (by decide) rfl (by decide),
   (c8_at2x_rewrite c8pathNoExt [] [] []).2 (by decide)⟩

/-! ## Host serialization (concurrency model) -/

theorem inFlight_holds (p : PC) (h : isInFlightPC p = true) : holdsHostLock p = true := by
  cases p <;> first | rfl | exact nomatch h

theorem getq_set_cases {l : List FetchTask} {i j : Nat} {t t' u : FetchTask}
    (hget : l[i]? = some t) (hget' : (l.set i t')[j]? = some u) :
    (i = j ∧ u = t') ∨ (¬(i = j) ∧ l[j]? = some u) := by
  by_cases hij : i = j
  · subst hij
    left
    have hlt : i < l.length := by
      by_cases h : i < l.length
      · exact h
      · rw [List.getElem?_eq_none (Nat.le_of_not_lt h)] at hget
        cases hget
    rw [List.getElem?_set_self hlt] at hget'
    exact ⟨rfl, (Option.some.inj hget').symm⟩
  · right
    rw [List.getElem?_set_ne hij] at hget'
    exact ⟨hij, hget'⟩

theorem lockInv_step {budget : Nat} {s s' : Sys} (hstep : Step budget s s')
    (hinv : LockInv s) : LockInv s' := by
  cases hstep with
  | startNoHost i t hget hpc _ =>
    intro j u hget' hhold
    rcases getq_set_cases hget hget' with ⟨rfl, rfl⟩ | ⟨_, hold⟩
    · exact nomatch hhold
    · exact hinv j u hold hhold
  | startHost i t hget hpc _ =>
    intro j u hget' hhold
    rcases getq_set_cases hget hget' with ⟨rfl, rfl⟩ | ⟨_, hold⟩
    · exact nomatch hhold
    · exact hinv j u hold hhold
  | ensure i t hget hpc =>
    intro j u hget' hhold
    rcases getq_set_cases hget hget' with ⟨rfl, rfl⟩ | ⟨_, hold⟩
    · exact nomatch hhold
    · exact hinv j u hold hhold
  | acquire i t hget hpc hmem hfree =>
    intro j u hget' hhold
    rcases getq_set_cases hget hget' with ⟨rfl, rfl⟩ | ⟨hne, hold⟩
    · show alookup (urlNetloc t.url) ((urlNetloc t.url, i) :: s.lockHolder) = some i
      simp [alookup]
    · have hj := hinv j u hold hhold
      by_cases hh : urlNetloc u.url = urlNetloc t.url
      · rw [hh, hfree] at hj
        cases hj
      · show alookup (urlNetloc u.url) ((urlNetloc t.url, i) :: s.lockHolder) = some j
        have : ¬(urlNetloc t.url = urlNetloc u.url) := fun e => hh e.symm
        simp only [alookup, this, if_false]
        exact hj
  | cacheHit i t r hget hpc hcache =>
    intro j u hget' hhold
    rcases getq_set_cases hget hget' with ⟨rfl, rfl⟩ | ⟨hne, hold⟩
    · exact nomatch hhold
    · have hj := hinv j u hold hhold
      have hi : alookup (urlNetloc t.url) s.lockHolder = some i := by
        apply hinv i t hget
        rw [hpc]
        rfl
      by_cases hh : urlNetloc u.url = urlNetloc t.url
      · rw [hh] at hj
        rw [hj] at hi
        exact absurd (Option.some.inj hi) fun e => hne e.symm
      · show alookup (urlNetloc u.url) (aerase (urlNetloc t.url) s.lockHolder) = some j
        rw [alookup_aerase_ne hh]
        exact hj
  | cacheMiss i t hget hpc hcache =>
    intro j u hget' hhold
    rcases getq_set_cases hget hget' with ⟨rfl, rfl⟩ | ⟨_, hold⟩
    · apply hinv i t hget
      rw [hpc]
      rfl
    · exact hinv j u hold hhold
  | request i t k hget hpc hk =>
    intro j u hget' hhold
    rcases getq_set_cases hget hget' with ⟨rfl, rfl⟩ | ⟨_, hold⟩
    · apply hinv i t hget
      rw [hpc]
      rfl
    · exact hinv j u hold hhold
  | complete i t k o hget hpc =>
    intro j u hget' hhold
    rcases getq_set_cases hget hget' with ⟨rfl, rfl⟩ | ⟨_, hold⟩
    · apply hinv i t hget
      rw [hpc]
      rfl
    · exact hinv j u hold hhold
  | release i t hget hpc =>
    intro j u hget' hhold
    rcases getq_set_cases hget hget' with ⟨rfl, rfl⟩ | ⟨hne, hold⟩
    · exact nomatch hhold
    · have hj := hinv j u hold hhold
      have hi : alookup (urlNetloc t.url) s.lockHolder = some i := by
        apply hinv i t hget
        rw [hpc]
        rfl
      by_cases hh : urlNetloc u.url = urlNetloc t.url
      · rw [hh] at hj
        rw [hj] at hi
        exact absurd (Option.some.inj hi) fun e => hne e.symm
      · show alookup (urlNetloc u.url) (aerase (urlNetloc t.url) s.lockHolder) = some j
        rw [alookup_aerase_ne hh]
        exact hj

theorem lockInv_init (specs : List TaskSpec) : LockInv (initSys specs) := by
  intro j u hget hhold
  exfalso
  simp only [initSys] at hget
  rw [List.getElem?_map] at hget
  cases hsp : specs[j]? with
  | none => rw [hsp] at hget; cases hget
  | some sp =>
    rw [hsp] at hget
    simp only [Option.map_some'] at hget
    have hu := Option.some.inj hget
    rw [← hu] at hhold
    exact nomatch hhold

theorem lockInv_reachable {budget : Nat} {specs : List TaskSpec} {s : Sys}
    (h : SysReachable budget specs s) : LockInv s := by
  induction h with
  | refl => exact lockInv_init specs
  | tail _ hstep ih => exact lockInv_step hstep ih

/-- C9.  In every state reachable under the cooperative scheduler, no two
distinct tasks whose URLs share a host component both have a transport
request in flight: the lazily created per-host mutex serializes all
requests to that host across the entire run, whichever source issued
them. -/
theorem c9_host_serialized_no_overlap (budget : Nat) (specs : List TaskSpec) (s : Sys)
    (hreach : SysReachable budget specs s) (i j : Nat) (ti tj : FetchTask)
    (hi : s.tasks[i]? = some ti) (hj : s.tasks[j]? = some tj)
    (hij : ¬(i = j)) (hhost : urlNetloc ti.url = urlNetloc tj.url) :
    ¬(isInFlightPC ti.pc = true ∧ isInFlightPC tj.pc = true) := by
  rintro ⟨hfi, hfj⟩
  have hinv := lockInv_reachable hreach
  have h1 := hinv i ti hi (inFlight_holds _ hfi)
  have h2 := hinv j tj hj (inFlight_holds _ hfj)
  rw [hhost] at h1
  rw [h1] at h2
  exact hij (Option.some.inj h2)

/-- Witness for C9: two tasks probing distinct URLs on the same host,
from the initial state of a run. -/
theorem c9_host_serialized_no_overlap_witness :
    ¬(isInFlightPC c9task0.pc = true ∧ isInFlightPC c9task1.pc = true) :=
  c9_host_serialized_no_overlap 3 c9specs (initSys c9specs) Relation.ReflTransGen.refl
    0 1 c9task0 c9task1 (by decide) (by decide) (by decide) (by decide)
